import Mathlib

/-!
Verification of the mail authentication-and-routing core (packages
`forwards` and `domain`): forwarding maps and their loaders, the
three-level forward chain, the forwarding auth/delivery decorators,
the tenant-config merge, the filesystem domain registry cache, and
the address-splitting helpers of the auth router.

Go strings are modelled by Lean `String`, Go slices by `List`,
Go maps by association lists (insertion replaces an existing key),
`nil` pointers/slices/maps by `Option`/`[]`, and `(T, error)` returns
by `Except String T` or `T × Option String`.  Filesystem reads are
oracles passed in as parameters.
-/

namespace AuthCore

/-- Result of opening/reading a file: the file may be absent (which the
source treats as an empty result), present with content (a list of lines),
or fail with an I/O error. -/
inductive FileResult where
  | missing
  | content (lines : List String)
  | ioError
deriving DecidableEq

/-- Split a character list at the first occurrence of `sep`
(the behaviour of Go `strings.Cut` on a one-character separator).
Returns `none` when `sep` does not occur. -/
def splitAtFirst (sep : Char) : List Char → Option (List Char × List Char)
  | [] => none
  | c :: cs =>
    if c = sep then some ([], cs)
    else
      match splitAtFirst sep cs with
      | some (l, r) => some (c :: l, r)
      | none => none

/-- Split a character list at the last occurrence of `sep`
(the behaviour of Go `strings.LastIndex` plus slicing).
Returns `none` when `sep` does not occur. -/
def splitAtLast (sep : Char) : List Char → Option (List Char × List Char)
  | [] => none
  | c :: cs =>
    match splitAtLast sep cs with
    | some (l, r) => some (c :: l, r)
    | none => if c = sep then some ([], cs) else none

/-- Embeds `SplitUsername` (router): split `user@domain` into local part and
domain at the last `@`; a string without `@` yields the whole string and an
empty domain. -/
def SplitUsername (username : String) : String × String :=
  match splitAtLast '@' username.data with
  | some (l, r) => (String.mk l, String.mk r)
  | none => (username, "")

/-- Embeds `ParseLocalPart` (router): split a local part at the first `+`
into base and extension; a string without `+` yields the whole string and an
empty extension. -/
def ParseLocalPart (localPart : String) : String × String :=
  match splitAtFirst '+' localPart.data with
  | some (b, e) => (String.mk b, String.mk e)
  | none => (localPart, "")

/-- Case folding (Go `strings.ToLower`), character by character. -/
def strLower (s : String) : String := String.mk (s.data.map Char.toLower)

/-- Whitespace trimming on both ends of a character list. -/
def trimChars (cs : List Char) : List Char :=
  ((cs.dropWhile Char.isWhitespace).reverse.dropWhile Char.isWhitespace).reverse

/-- Whitespace trimming (Go `strings.TrimSpace`). -/
def strTrim (s : String) : String := String.mk (trimChars s.data)

/-- Split a character list on every occurrence of `sep`
(Go `strings.Split` on a one-character separator; the empty input yields
one empty field). -/
def splitOnChar (sep : Char) : List Char → List (List Char)
  | [] => [[]]
  | c :: cs =>
    let r := splitOnChar sep cs
    if c = sep then [] :: r
    else
      match r with
      | h :: t => (c :: h) :: t
      | [] => [[c]]

/-- Split a string on every occurrence of `sep` (Go `strings.Split`). -/
def strSplitOn (sep : Char) (s : String) : List String :=
  (splitOnChar sep s.data).map String.mk

/-- Whether the string starts with the character `c`
(Go `strings.HasPrefix` with a one-character pattern). -/
def strStartsWith (c : Char) (s : String) : Bool :=
  match s.data with
  | c2 :: _ => c2 == c
  | [] => false

/-- Lookup in an association list modelling a Go map read `m[k]`. -/
def assocLookup {α : Type} : List (String × α) → String → Option α
  | [], _ => none
  | (k2, v) :: rest, k => if k2 = k then some v else assocLookup rest k

/-- Insertion into an association list modelling a Go map write `m[k] = v`:
an existing binding for `k` is replaced, otherwise the binding is appended. -/
def assocInsert {α : Type} : List (String × α) → String → α → List (String × α)
  | [], k, v => [(k, v)]
  | (k2, v2) :: rest, k, v =>
    if k2 = k then (k, v) :: rest else (k2, v2) :: assocInsert rest k v

/-- Embeds `forwards.ForwardMap`: exact rules (localpart to targets) plus the
catchall targets of the `*` wildcard (empty list means unset). -/
structure ForwardMap where
  exact : List (String × List String)
  catchall : List String
deriving DecidableEq

/-- Embeds the shared target-list parsing of `Load` and `FromMap`: split the
value on commas, case-fold then trim each target, and drop empty targets. -/
def parseTargets (value : String) : List String :=
  ((strSplitOn ',' value).map (fun t => strTrim (strLower t))).filter (fun t => t != "")

/-- Embeds Go `strings.Cut(s, sep)` for a one-character separator, returning
the parts before and after the first occurrence. -/
def cutString (sep : Char) (s : String) : Option (String × String) :=
  match splitAtFirst sep s.data with
  | some (l, r) => some (String.mk l, String.mk r)
  | none => none

/-- Embeds one iteration of the scanner loop in `forwards.Load`: trim the
line; skip blanks and `#` comments; cut at the first colon (skipping lines
without one); case-fold and trim the key; parse the targets; skip the line
when no targets remain; store under the catchall for key `*`, otherwise as
an exact rule. -/
def loadLine (m : ForwardMap) (raw : String) : ForwardMap :=
  let line := strTrim raw
  if line == "" || strStartsWith '#' line then m
  else
    match cutString ':' line with
    | none => m
    | some (k, v) =>
      let key := strTrim (strLower k)
      let targets := parseTargets v
      if targets.isEmpty then m
      else if key == "*" then { m with catchall := targets }
      else { m with exact := assocInsert m.exact key targets }

/-- Embeds `forwards.Load`: a missing file yields the empty map (not an
error), an I/O failure yields an error, and file content is folded line by
line through `loadLine` starting from the empty map. -/
def Load (file : FileResult) : Except String ForwardMap :=
  match file with
  | FileResult.missing => Except.ok { exact := [], catchall := [] }
  | FileResult.content lines =>
      Except.ok (lines.foldl loadLine { exact := [], catchall := [] })
  | FileResult.ioError => Except.error "open forwards file"

/-- Embeds `forwards.FromMap`: build a ForwardMap from a (possibly nil)
map of localpart to comma-separated targets; entries with no surviving
targets are skipped, key `*` sets the catchall, other keys are case-folded
and stored as exact rules. -/
def FromMap (m : Option (List (String × String))) : ForwardMap :=
  match m with
  | none => { exact := [], catchall := [] }
  | some entries =>
      entries.foldl
        (fun fm kv =>
          let targets := parseTargets kv.2
          if targets.isEmpty then fm
          else if kv.1 == "*" then { fm with catchall := targets }
          else { fm with exact := assocInsert fm.exact (strLower kv.1) targets })
        { exact := [], catchall := [] }

/-- Embeds `(*ForwardMap).Resolve` with its nil-receiver guard (the receiver
is an `Option`): case-fold the localpart, try the exact rules, then the
catchall when it is non-empty, else no rule. -/
def ForwardMapResolve (m : Option ForwardMap) (localpart : String) : List String × Bool :=
  match m with
  | none => ([], false)
  | some fm =>
    let lp := strLower localpart
    match assocLookup fm.exact lp with
    | some targets => (targets, true)
    | none => if fm.catchall.length > 0 then (fm.catchall, true) else ([], false)

/-- Embeds `(*ForwardMap).UserExists`: whether a rule (exact or catchall)
applies to the localpart. -/
def ForwardMapUserExists (m : Option ForwardMap) (localpart : String) : Bool :=
  (ForwardMapResolve m localpart).2

/-- Embeds `(*ForwardMap).Empty` with its nil-receiver guard: no exact rules
and no catchall. -/
def ForwardMapEmpty (m : Option ForwardMap) : Bool :=
  match m with
  | none => true
  | some fm => fm.exact.length == 0 && fm.catchall.length == 0

/-- Embeds `forwards.LoadTargets` (per-user forward file): a missing file is
an empty target list with no error; each line is case-folded and trimmed and
kept when non-empty and not a `#` comment; I/O failures are errors. -/
def LoadTargets (r : FileResult) : Except String (List String) :=
  match r with
  | FileResult.missing => Except.ok []
  | FileResult.content lines =>
      Except.ok (lines.foldl
        (fun acc l =>
          let t := strTrim (strLower l)
          if t != "" && !(strStartsWith '#' t) then acc ++ [t] else acc) [])
  | FileResult.ioError => Except.error "read user forwards file"

/-- Embeds the `forwardChain` struct: a user-forwards directory (empty means
the user level is disabled) and the domain-level and system-default maps. -/
structure forwardChain where
  userForwardsDir : String
  domainForwards : Option ForwardMap
  defaultForwards : Option ForwardMap

/-- Path join `filepath.Join(dir, localpart)` as used by the chain. -/
def joinPath (dir localpart : String) : String := dir ++ "/" ++ localpart

/-- Embeds the user-level step of `forwardChain.resolve`: when a directory is
configured, read the per-user file; a successful read with a non-empty target
list wins, anything else (disabled, read error, empty list) falls through.
The filesystem is the oracle `fs` mapping a path to its `FileResult`. -/
def userLevelLookup (fs : String → FileResult) (c : forwardChain)
    (localpart : String) : Option (List String) :=
  if c.userForwardsDir != "" then
    match LoadTargets (fs (joinPath c.userForwardsDir localpart)) with
    | Except.ok targets => if targets.length > 0 then some targets else none
    | Except.error _ => none
  else none

/-- Embeds `forwardChain.resolve`: user level first, then the domain-level
map, then the system default; no match at any level gives `([], false)`. -/
def chainResolve (fs : String → FileResult) (c : forwardChain)
    (localpart : String) : List String × Bool :=
  match userLevelLookup fs c localpart with
  | some targets => (targets, true)
  | none =>
    match ForwardMapResolve c.domainForwards localpart with
    | (targets, true) => (targets, true)
    | (_, false) =>
      match ForwardMapResolve c.defaultForwards localpart with
      | (targets, true) => (targets, true)
      | (_, false) => ([], false)

/-- Embeds `mailAuthAgent.UserExists`: ask the inner credential agent (a Go
`(bool, error)` pair); an inner error is returned as `(false, err)`; inner
existence wins; otherwise the user exists iff the forward chain resolves.
The inner agent and the chain resolution are oracles. -/
def mailAuthUserExists (inner : String → Bool × Option String)
    (resolve : String → List String × Bool) (username : String) :
    Bool × Option String :=
  let r := inner username
  match r.2 with
  | some e => (false, some e)
  | none => if r.1 then (true, none) else ((resolve username).2, none)

/-- Embeds `msgstore.Envelope` at the interface boundary: an ordered
recipient list plus the rest of the envelope (modelled by the sender), so
that "a copy of the envelope with Recipients replaced" is expressible. -/
structure Envelope where
  Sender : String
  Recipients : List String
deriving DecidableEq

/-- Message bodies, already buffered to bytes (Go `io.ReadAll` result). -/
abbrev Body := List Nat

/-- Identifies which delivery agent a call went to: the wrapped inner agent
or the delivery agent of a registry domain. -/
inductive AgentRef where
  | inner
  | domainAgent (name : String)
deriving DecidableEq

/-- One delivery call observed during `Deliver`: the agent invoked, the
envelope passed, and the body passed. -/
structure DeliveryCall where
  agent : AgentRef
  envelope : Envelope
  body : Body
deriving DecidableEq

/-- Embeds the per-target errors of `SmartDeliveryAgent.Deliver`: target
without a domain part, target domain not locally served (absent from the
registry or without a delivery agent), or a delegate delivery failure. -/
inductive FwdErr where
  | noDomain (target : String)
  | notServed (target : String) (domainName : String)
  | forwardFailed (target : String) (e : String)
deriving DecidableEq

/-- Embeds the `error` returned by `Deliver`: either the error of the inner
agent on the local path, or `errors.Join` of the per-target errors. -/
inductive DeliverError where
  | agentErr (e : String)
  | joined (es : List FwdErr)
deriving DecidableEq

/-- A registry entry as seen by the delivery decorator: a domain that may or
may not carry a delivery agent (`d.DeliveryAgent == nil`). -/
structure DomainEntry where
  hasDeliveryAgent : Bool
deriving DecidableEq

/-- Embeds one iteration of the target loop in `SmartDeliveryAgent.Deliver`:
split the target at the last `@`; no domain part records a per-target error;
a domain absent from the registry or without a delivery agent records a
per-target error; otherwise the target's domain agent is called with the
envelope whose recipients are replaced by the single target and a fresh
reader over the buffered body, recording its error if it fails.  The
accumulator carries the calls made and the errors collected so far. -/
def fanOutStep (provider : String → Option DomainEntry)
    (domainDeliver : String → Envelope → Body → Option String)
    (envelope : Envelope) (data : Body)
    (acc : List DeliveryCall × List FwdErr) (target : String) :
    List DeliveryCall × List FwdErr :=
  let targetDomain := (SplitUsername target).2
  if targetDomain == "" then (acc.1, acc.2 ++ [FwdErr.noDomain target])
  else
    match provider targetDomain with
    | none => (acc.1, acc.2 ++ [FwdErr.notServed target targetDomain])
    | some d =>
      if !d.hasDeliveryAgent then
        (acc.1, acc.2 ++ [FwdErr.notServed target targetDomain])
      else
        let fwdEnvelope := { envelope with Recipients := [target] }
        let call : DeliveryCall := ⟨AgentRef.domainAgent targetDomain, fwdEnvelope, data⟩
        match domainDeliver targetDomain fwdEnvelope data with
        | some e => (acc.1 ++ [call], acc.2 ++ [FwdErr.forwardFailed target e])
        | none => (acc.1 ++ [call], acc.2)

/-- The whole target loop of `SmartDeliveryAgent.Deliver`. -/
def fanOut (provider : String → Option DomainEntry)
    (domainDeliver : String → Envelope → Body → Option String)
    (envelope : Envelope) (data : Body) (targets : List String) :
    List DeliveryCall × List FwdErr :=
  targets.foldl (fanOutStep provider domainDeliver envelope data) ([], [])

/-- Embeds `SmartDeliveryAgent.Deliver`: with no recipients, or when the
chain resolves no rule for the first recipient's local part, delegate to the
inner agent unchanged; otherwise buffer the body and fan out to every
target, returning the join of the per-target errors (`none` iff there were
none).  The result records the delivery calls made and the returned error;
the chain resolution and the agents are oracles. -/
def Deliver (resolve : String → List String × Bool)
    (provider : String → Option DomainEntry)
    (innerDeliver : Envelope → Body → Option String)
    (domainDeliver : String → Envelope → Body → Option String)
    (envelope : Envelope) (message : Body) :
    List DeliveryCall × Option DeliverError :=
  match envelope.Recipients with
  | [] =>
    ([⟨AgentRef.inner, envelope, message⟩],
     (innerDeliver envelope message).map DeliverError.agentErr)
  | rcpt :: _ =>
    let localpart := (SplitUsername rcpt).1
    match resolve localpart with
    | (_, false) =>
      ([⟨AgentRef.inner, envelope, message⟩],
       (innerDeliver envelope message).map DeliverError.agentErr)
    | (targets, true) =>
      let r := fanOut provider domainDeliver envelope message targets
      (r.1, if r.2.isEmpty then none else some (DeliverError.joined r.2))

/-- Per-target routable-call characterisation, written from the claim: a
target is routable exactly when it has a domain part that the registry
serves with a delivery agent, and then it receives a copy of the envelope
with the recipients replaced by that single target plus the buffered body. -/
def specRoutableCall (provider : String → Option DomainEntry)
    (envelope : Envelope) (data : Body) (target : String) :
    Option DeliveryCall :=
  let targetDomain := (SplitUsername target).2
  if targetDomain == "" then none
  else
    match provider targetDomain with
    | none => none
    | some d =>
      if !d.hasDeliveryAgent then none
      else some ⟨AgentRef.domainAgent targetDomain,
                 { envelope with Recipients := [target] }, data⟩

/-- Per-target error characterisation, written from the claim: no domain
part, unserved domain, or the served domain's agent failing on the
single-target envelope. -/
def specTargetErr (provider : String → Option DomainEntry)
    (domainDeliver : String → Envelope → Body → Option String)
    (envelope : Envelope) (data : Body) (target : String) : Option FwdErr :=
  let targetDomain := (SplitUsername target).2
  if targetDomain == "" then some (FwdErr.noDomain target)
  else
    match provider targetDomain with
    | none => some (FwdErr.notServed target targetDomain)
    | some d =>
      if !d.hasDeliveryAgent then some (FwdErr.notServed target targetDomain)
      else
        match domainDeliver targetDomain { envelope with Recipients := [target] } data with
        | some e => some (FwdErr.forwardFailed target e)
        | none => none

/-- Embeds `DomainAuthConfig` (`[auth]` section of a tenant config). -/
@[ext]
structure DomainAuthConfig where
  Type' : String
  CredentialBackend : String
  KeyBackend : String
  Options : List (String × String)
deriving DecidableEq

/-- Embeds `DomainMsgStoreConfig` (`[msgstore]` section). -/
@[ext]
structure DomainMsgStoreConfig where
  Type' : String
  BasePath : String
  Options : List (String × String)
deriving DecidableEq

/-- Embeds `DomainConfig`: auth and msgstore specs, the numeric group id
(0 means unset), and the optional `[forwards]` declaration (`none` means not
declared; `some []` means declared but empty). -/
@[ext]
structure DomainConfig where
  Auth : DomainAuthConfig
  MsgStore : DomainMsgStoreConfig
  Gid : Nat
  Forwards : Option (List (String × String))
deriving DecidableEq

/-- Embeds `mergeConfig`: start from `base` and conditionally overwrite each
scalar/map field with the override's value when that value is non-zero
(per-field net effect of the source's sequence of guarded assignments; the
`Forwards` field is never touched by `mergeConfig`). -/
def mergeConfig (base oride : DomainConfig) : DomainConfig :=
  { Auth :=
      { Type' := if oride.Auth.Type' != "" then oride.Auth.Type' else base.Auth.Type'
        CredentialBackend :=
          if oride.Auth.CredentialBackend != "" then oride.Auth.CredentialBackend
          else base.Auth.CredentialBackend
        KeyBackend :=
          if oride.Auth.KeyBackend != "" then oride.Auth.KeyBackend
          else base.Auth.KeyBackend
        Options :=
          if oride.Auth.Options.length > 0 then oride.Auth.Options
          else base.Auth.Options }
    MsgStore :=
      { Type' := if oride.MsgStore.Type' != "" then oride.MsgStore.Type' else base.MsgStore.Type'
        BasePath :=
          if oride.MsgStore.BasePath != "" then oride.MsgStore.BasePath
          else base.MsgStore.BasePath
        Options :=
          if oride.MsgStore.Options.length > 0 then oride.MsgStore.Options
          else base.MsgStore.Options }
    Gid := if oride.Gid != 0 then oride.Gid else base.Gid
    Forwards := base.Forwards }

/-- Embeds the forwarding-source selection of `loadDomain` (filesystem
provider with base defaults): when the per-domain override declares a
`[forwards]` section (even an empty one) it becomes the domain map and the
system default is suppressed; otherwise the domain map is empty and the
provider's base-level `[forwards]` (when present) becomes the default map.
Returns (domain-level map, default-level map). -/
def effectiveForwards (baseDefaults : Option DomainConfig)
    (domainOverride : Option DomainConfig) : ForwardMap × ForwardMap :=
  match domainOverride with
  | some ov =>
    match ov.Forwards with
    | some fw => (FromMap (some fw), FromMap none)
    | none =>
      (FromMap none,
       match baseDefaults with
       | some bd => FromMap bd.Forwards
       | none => FromMap none)
  | none =>
    (FromMap none,
     match baseDefaults with
     | some bd => FromMap bd.Forwards
     | none => FromMap none)

/-- State of the `FilesystemDomainProvider` cache: the name-to-Domain cache
(Domains abstracted to identifiers) and the log of Domains closed so far. -/
structure RegState where
  cache : List (String × Nat)
  closed : List Nat
deriving DecidableEq

/-- Embeds the insert-or-discard block of `GetDomain` (executed under the
write lock after the build): if an entry for the name appeared in the
interim the freshly built Domain is closed and the existing one returned,
otherwise the built Domain is inserted and returned. -/
def finishBuild (s : RegState) (name : String) (built : Nat) :
    Option Nat × RegState :=
  match assocLookup s.cache name with
  | some existing => (some existing, { s with closed := s.closed ++ [built] })
  | none => (some built, { s with cache := s.cache ++ [(name, built)] })

/-- Embeds `FilesystemDomainProvider.GetDomain`: case-fold the name; return
a cache hit; otherwise check eligibility (the `os.Stat` checks, as an
oracle), build the Domain (`loadDomain`, as an oracle whose `none` is a
build failure surfaced as nil), and insert-or-discard.  Returns the Domain
(or `none`) and the new state. -/
def GetDomain (eligible : String → Bool) (build : String → Option Nat)
    (s : RegState) (name0 : String) : Option Nat × RegState :=
  let name := strLower name0
  match assocLookup s.cache name with
  | some d => (some d, s)
  | none =>
    if !(eligible name) then (none, s)
    else
      match build name with
      | none => (none, s)
      | some d => finishBuild s name d

/-- Embeds `FilesystemDomainProvider.Close`: close every cached Domain and
reset the cache to an empty map. -/
def CloseProvider (s : RegState) : RegState :=
  { cache := [], closed := s.closed ++ s.cache.map Prod.snd }

/-- Running a sequence of `GetDomain` calls (the state after each call). -/
def runGets (eligible : String → Bool) (build : String → Option Nat)
    (s : RegState) : List String → RegState
  | [] => s
  | n :: ns => runGets eligible build (GetDomain eligible build s n).2 ns

/-- Embeds `auth.User` (the fields the router touches). -/
structure User where
  Username : String
  Mailbox : String
deriving DecidableEq

/-- Embeds `auth.AuthSession` (the field the router touches; Go `User` is a
pointer, hence the `Option`). -/
structure AuthSession where
  User : Option User
deriving DecidableEq

/-- A domain as the router sees it: its name and its auth agent (an oracle
from username and password to a session or an error). -/
structure RouterDomain where
  Name : String
  authAgent : String → String → Except String AuthSession

/-- Embeds `AuthResult`: the session, the resolved domain (`none` when the
fallback handled the request), and the subaddress extension. -/
structure AuthResult where
  Session : AuthSession
  Domain : Option RouterDomain
  Extension : String

/-- Embeds `AuthRouter.AuthenticateWithDomain`: split the username at the
last `@` and the local part at the first `+`; with a provider and a
non-empty domain that the provider serves, authenticate the base against the
domain's agent, propagate its error, and on success overwrite the session
user's Mailbox with the bare base before returning; otherwise fall back (the
fallback sees the username with the extension stripped), and with no
fallback fail with the auth-failed error. -/
def AuthenticateWithDomain (provider : Option (String → Option RouterDomain))
    (fallback : Option (String → String → Except String AuthSession))
    (username password : String) : Except String AuthResult :=
  let localPart := (SplitUsername username).1
  let domainName := (SplitUsername username).2
  let base := (ParseLocalPart localPart).1
  let extension := (ParseLocalPart localPart).2
  let viaDomain : Option (Except String AuthResult) :=
    match provider with
    | some getDom =>
      if domainName != "" then
        match getDom domainName with
        | some d =>
          some (match d.authAgent base password with
            | Except.error e => Except.error e
            | Except.ok session =>
              let session2 : AuthSession :=
                { User := session.User.map (fun u => { u with Mailbox := base }) }
              Except.ok ⟨session2, some d, extension⟩)
        | none => none
      else none
    | none => none
  match viaDomain with
  | some r => r
  | none =>
    match fallback with
    | some fb =>
      let fallbackUser :=
        if extension != "" then
          if domainName != "" then base ++ "@" ++ domainName else base
        else username
      match fb fallbackUser password with
      | Except.error e => Except.error e
      | Except.ok session => Except.ok ⟨session, none, extension⟩
    | none => Except.error "authentication failed"

/-- Concrete domain auth agent for exercising the router: `alice` with
password `secret` yields a session whose user has Username and Mailbox
`alice` (as in the repository's router test). -/
def exampleAgent : String → String → Except String AuthSession :=
  fun u p =>
    if u == "alice" && p == "secret" then
      Except.ok ⟨some ⟨"alice", "alice"⟩⟩
    else Except.error "authentication failed"

/-- Concrete provider serving only `example.com` with `exampleAgent`. -/
def exampleProvider : String → Option RouterDomain :=
  fun n => if n == "example.com" then some ⟨"example.com", exampleAgent⟩ else none

end AuthCore

namespace AuthCore

theorem splitAtFirst_eq_none {sep : Char} {cs : List Char} :
    splitAtFirst sep cs = none ↔ sep ∉ cs := by
  induction cs with
  | nil => simp [splitAtFirst]
  | cons c cs ih =>
    by_cases h : c = sep
    · subst h; simp [splitAtFirst]
    · have hne : ¬ sep = c := fun hh => h hh.symm
      cases hs : splitAtFirst sep cs with
      | none =>
        have hmem : sep ∉ cs := ih.mp hs
        simp [splitAtFirst, h, hs, hne, hmem]
      | some p =>
        obtain ⟨l, r⟩ := p
        have hmem : sep ∈ cs := by
          by_contra hmem
          rw [← ih] at hmem
          rw [hmem] at hs
          exact Option.noConfusion hs
        simp [splitAtFirst, h, hs, hmem]

theorem splitAtFirst_eq_some {sep : Char} {cs l r : List Char}
    (h : splitAtFirst sep cs = some (l, r)) :
    cs = l ++ sep :: r ∧ sep ∉ l := by
  induction cs generalizing l r with
  | nil => simp [splitAtFirst] at h
  | cons c cs ih =>
    by_cases hc : c = sep
    · subst hc
      simp only [splitAtFirst, if_pos rfl] at h
      cases h
      simp
    · cases hs : splitAtFirst sep cs with
      | none =>
        simp only [splitAtFirst, if_neg hc, hs] at h
        exact Option.noConfusion h
      | some p =>
        obtain ⟨pl, pr⟩ := p
        simp only [splitAtFirst, if_neg hc, hs] at h
        cases h
        obtain ⟨hcs, hmem⟩ := ih hs
        constructor
        · rw [hcs]; simp
        · intro hin
          rcases List.mem_cons.mp hin with h1 | h2
          · exact hc h1.symm
          · exact hmem h2

theorem splitAtLast_eq_none {sep : Char} {cs : List Char} :
    splitAtLast sep cs = none ↔ sep ∉ cs := by
  induction cs with
  | nil => simp [splitAtLast]
  | cons c cs ih =>
    cases hs : splitAtLast sep cs with
    | none =>
      have hmem : sep ∉ cs := ih.mp hs
      by_cases h : c = sep
      · subst h; simp [splitAtLast, hs]
      · have hne : ¬ sep = c := fun hh => h hh.symm
        simp [splitAtLast, hs, h, hne, hmem]
    | some p =>
      obtain ⟨l, r⟩ := p
      have hmem : sep ∈ cs := by
        by_contra hmem
        rw [← ih] at hmem
        rw [hmem] at hs
        exact Option.noConfusion hs
      simp [splitAtLast, hs, hmem]

theorem splitAtLast_eq_some {sep : Char} {cs l r : List Char}
    (h : splitAtLast sep cs = some (l, r)) :
    cs = l ++ sep :: r ∧ sep ∉ r := by
  induction cs generalizing l r with
  | nil => simp [splitAtLast] at h
  | cons c cs ih =>
    cases hs : splitAtLast sep cs with
    | none =>
      simp only [splitAtLast, hs] at h
      by_cases hc : c = sep
      · subst hc
        rw [if_pos rfl] at h
        cases h
        exact ⟨rfl, splitAtLast_eq_none.mp hs⟩
      · rw [if_neg hc] at h
        exact Option.noConfusion h
    | some p =>
      obtain ⟨pl, pr⟩ := p
      simp only [splitAtLast, hs] at h
      cases h
      obtain ⟨hcs, hmem⟩ := ih hs
      refine ⟨?_, hmem⟩
      rw [hcs]
      simp

/-- C9: `SplitUsername` splits at the last `@` (so the returned domain part
contains no `@`, and the input is the local part, an `@`, and the domain),
returns the whole string with an empty domain when no `@` occurs; and
`ParseLocalPart` splits at the first `+` only (the returned base contains no
`+`), returning an empty extension when no `+` occurs — together with the
concrete examples from the specification. -/
theorem router_split_functions_c9 :
    (∀ s : String, '@' ∉ s.data → SplitUsername s = (s, "")) ∧
    (∀ s : String, '@' ∈ s.data →
      s.data = (SplitUsername s).1.data ++ '@' :: (SplitUsername s).2.data ∧
      '@' ∉ (SplitUsername s).2.data) ∧
    (∀ s : String, '+' ∉ s.data → ParseLocalPart s = (s, "")) ∧
    (∀ s : String, '+' ∈ s.data →
      s.data = (ParseLocalPart s).1.data ++ '+' :: (ParseLocalPart s).2.data ∧
      '+' ∉ (ParseLocalPart s).1.data) ∧
    SplitUsername "user@example.com" = ("user", "example.com") ∧
    SplitUsername "user@first@second" = ("user@first", "second") ∧
    ParseLocalPart "user+folder" = ("user", "folder") ∧
    ParseLocalPart "user+a+b" = ("user", "a+b") ∧
    ParseLocalPart "user+" = ("user", "") ∧
    ParseLocalPart "user" = ("user", "") := by
  refine ⟨?_, ?_, ?_, ?_, by decide, by decide, by decide, by decide, by decide, by decide⟩
  · intro s h
    unfold SplitUsername
    rw [splitAtLast_eq_none.mpr h]
  · intro s h
    unfold SplitUsername
    cases hs : splitAtLast '@' s.data with
    | none => exact absurd h (splitAtLast_eq_none.mp hs)
    | some p =>
      obtain ⟨l, r⟩ := p
      obtain ⟨hcs, hmem⟩ := splitAtLast_eq_some hs
      exact ⟨hcs, hmem⟩
  · intro s h
    unfold ParseLocalPart
    rw [splitAtFirst_eq_none.mpr h]
  · intro s h
    unfold ParseLocalPart
    cases hs : splitAtFirst '+' s.data with
    | none => exact absurd h (splitAtFirst_eq_none.mp hs)
    | some p =>
      obtain ⟨l, r⟩ := p
      obtain ⟨hcs, hmem⟩ := splitAtFirst_eq_some hs
      exact ⟨hcs, hmem⟩

/-- Witness for C9: the quantified conjuncts applied at concrete inputs. -/
theorem router_split_functions_c9_witness :
    SplitUsername "plainuser" = ("plainuser", "") ∧
    (String.data "a@b" =
      (SplitUsername "a@b").1.data ++ '@' :: (SplitUsername "a@b").2.data ∧
      '@' ∉ (SplitUsername "a@b").2.data) ∧
    ParseLocalPart "nobody" = ("nobody", "") ∧
    (String.data "a+b" =
      (ParseLocalPart "a+b").1.data ++ '+' :: (ParseLocalPart "a+b").2.data ∧
      '+' ∉ (ParseLocalPart "a+b").1.data) :=
  ⟨router_split_functions_c9.1 "plainuser" (by decide),
   router_split_functions_c9.2.1 "a@b" (by decide),
   router_split_functions_c9.2.2.1 "nobody" (by decide),
   router_split_functions_c9.2.2.2.1 "a+b" (by decide)⟩

/-- C5: `Resolve` is case-insensitive (two localparts with the same case
folding resolve identically); an exact entry for the folded localpart is
returned with found set; otherwise a non-empty catchall is returned with
found set; otherwise the result is `([], false)`; and on a nil receiver, on
`FromMap nil`, and on `FromMap` of an empty map, `Resolve` always returns
`([], false)` and `Empty` is true. -/
theorem forwardMap_resolve_c5 :
    (∀ (m : Option ForwardMap) (s t : String),
      strLower s = strLower t → ForwardMapResolve m s = ForwardMapResolve m t) ∧
    (∀ (fm : ForwardMap) (s : String) (ts : List String),
      assocLookup fm.exact (strLower s) = some ts →
      ForwardMapResolve (some fm) s = (ts, true)) ∧
    (∀ (fm : ForwardMap) (s : String),
      assocLookup fm.exact (strLower s) = none → fm.catchall ≠ [] →
      ForwardMapResolve (some fm) s = (fm.catchall, true)) ∧
    (∀ (fm : ForwardMap) (s : String),
      assocLookup fm.exact (strLower s) = none → fm.catchall = [] →
      ForwardMapResolve (some fm) s = ([], false)) ∧
    (∀ s : String, ForwardMapResolve none s = ([], false)) ∧
    ForwardMapEmpty none = true ∧
    FromMap none = FromMap (some []) ∧
    (∀ s : String, ForwardMapResolve (some (FromMap none)) s = ([], false)) ∧
    ForwardMapEmpty (some (FromMap none)) = true := by
  refine ⟨?_, ?_, ?_, ?_, fun s => rfl, rfl, rfl, fun s => ?_, rfl⟩
  · intro m s t h
    cases m with
    | none => rfl
    | some fm => simp only [ForwardMapResolve, h]
  · intro fm s ts h
    simp [ForwardMapResolve, h]
  · intro fm s h1 h2
    have hlen : 0 < fm.catchall.length := List.length_pos.mpr h2
    simp [ForwardMapResolve, h1, hlen]
  · intro fm s h1 h2
    simp [ForwardMapResolve, h1, h2]
  · simp [ForwardMapResolve, FromMap, assocLookup]

/-- Witness for C5: the quantified conjuncts applied to a concrete map with
an exact rule for alice and a catchall. -/
theorem forwardMap_resolve_c5_witness :
    ForwardMapResolve (some ⟨[("alice", ["x@y"])], ["c@d"]⟩) "ALICE" =
      ForwardMapResolve (some ⟨[("alice", ["x@y"])], ["c@d"]⟩) "alice" ∧
    ForwardMapResolve (some ⟨[("alice", ["x@y"])], ["c@d"]⟩) "alice" = (["x@y"], true) ∧
    ForwardMapResolve (some ⟨[("alice", ["x@y"])], ["c@d"]⟩) "bob" = (["c@d"], true) ∧
    ForwardMapResolve (some ⟨[("alice", ["x@y"])], []⟩) "bob" = ([], false) :=
  ⟨forwardMap_resolve_c5.1 _ "ALICE" "alice" (by decide),
   forwardMap_resolve_c5.2.1 _ "alice" _ (by decide),
   forwardMap_resolve_c5.2.2.1 _ "bob" (by decide) (by decide),
   forwardMap_resolve_c5.2.2.2.1 _ "bob" (by decide) (by decide)⟩

/-- C2: the chain resolves in strict three-level order with the first hit
winning: a configured user-forwards directory whose per-user file reads
successfully with a non-empty list wins immediately; otherwise a domain-map
hit is returned; otherwise a default-map hit; and when no level matches the
result is `([], false)`. -/
theorem forwardChain_resolve_c2 :
    (∀ (fs : String → FileResult) (c : forwardChain) (lp : String) (ts : List String),
      c.userForwardsDir ≠ "" →
      LoadTargets (fs (joinPath c.userForwardsDir lp)) = Except.ok ts →
      ts ≠ [] →
      chainResolve fs c lp = (ts, true)) ∧
    (∀ (fs : String → FileResult) (c : forwardChain) (lp : String) (ts : List String),
      userLevelLookup fs c lp = none →
      ForwardMapResolve c.domainForwards lp = (ts, true) →
      chainResolve fs c lp = (ts, true)) ∧
    (∀ (fs : String → FileResult) (c : forwardChain) (lp : String) (ts : List String),
      userLevelLookup fs c lp = none →
      (ForwardMapResolve c.domainForwards lp).2 = false →
      ForwardMapResolve c.defaultForwards lp = (ts, true) →
      chainResolve fs c lp = (ts, true)) ∧
    (∀ (fs : String → FileResult) (c : forwardChain) (lp : String),
      userLevelLookup fs c lp = none →
      (ForwardMapResolve c.domainForwards lp).2 = false →
      (ForwardMapResolve c.defaultForwards lp).2 = false →
      chainResolve fs c lp = ([], false)) := by
  refine ⟨?_, ?_, ?_, ?_⟩
  · intro fs c lp ts h1 h2 h3
    have hlen : 0 < ts.length := List.length_pos.mpr h3
    have hu : userLevelLookup fs c lp = some ts := by
      simp [userLevelLookup, h1, h2, hlen]
    simp [chainResolve, hu]
  · intro fs c lp ts h1 h2
    simp [chainResolve, h1, h2]
  · intro fs c lp ts h1 h2 h3
    cases hdd : ForwardMapResolve c.domainForwards lp with
    | mk dts db =>
      rw [hdd] at h2
      simp at h2
      subst h2
      simp [chainResolve, h1, hdd, h3]
  · intro fs c lp h1 h2 h3
    cases hdd : ForwardMapResolve c.domainForwards lp with
    | mk dts db =>
      rw [hdd] at h2
      simp at h2
      subst h2
      cases hff : ForwardMapResolve c.defaultForwards lp with
      | mk fts fb =>
        rw [hff] at h3
        simp at h3
        subst h3
        simp [chainResolve, h1, hdd, hff]

/-- Witness for C2: a chain whose user level serves alice, whose domain map
serves bob, and whose default map has a catchall; all four conjuncts applied
at concrete localparts. -/
theorem forwardChain_resolve_c2_witness :
    chainResolve
      (fun p => if p == "/d/user_forwards/alice" then FileResult.content ["u@x"] else FileResult.missing)
      ⟨"/d/user_forwards", some ⟨[("bob", ["b@x"])], []⟩, some ⟨[], ["c@x"]⟩⟩
      "alice" = (["u@x"], true) ∧
    chainResolve
      (fun p => if p == "/d/user_forwards/alice" then FileResult.content ["u@x"] else FileResult.missing)
      ⟨"/d/user_forwards", some ⟨[("bob", ["b@x"])], []⟩, some ⟨[], ["c@x"]⟩⟩
      "bob" = (["b@x"], true) ∧
    chainResolve
      (fun p => if p == "/d/user_forwards/alice" then FileResult.content ["u@x"] else FileResult.missing)
      ⟨"/d/user_forwards", some ⟨[("bob", ["b@x"])], []⟩, some ⟨[], ["c@x"]⟩⟩
      "charlie" = (["c@x"], true) ∧
    chainResolve
      (fun p => if p == "/d/user_forwards/alice" then FileResult.content ["u@x"] else FileResult.missing)
      ⟨"/d/user_forwards", some ⟨[("bob", ["b@x"])], []⟩, some ⟨[], []⟩⟩
      "charlie" = ([], false) :=
  ⟨forwardChain_resolve_c2.1 _ _ "alice" ["u@x"] (by decide) (by rfl) (by decide),
   forwardChain_resolve_c2.2.1 _ _ "bob" ["b@x"] (by decide) (by decide),
   forwardChain_resolve_c2.2.2.1 _ _ "charlie" ["c@x"] (by decide) (by decide) (by decide),
   forwardChain_resolve_c2.2.2.2 _ _ "charlie" (by decide) (by decide) (by decide)⟩

/-- C4 is refuted as universally stated: with an inner agent failing with an
error and a chain that does resolve a rule for the name, `UserExists`
returns false although the chain resolves (the claimed biconditional would
require true). -/
theorem mailAuth_userExists_c4_counterexample :
    ((fun (_ : String) => (["target@example.org"], true)) "alice").2 = true ∧
    (mailAuthUserExists (fun _ => (false, some "backend unavailable"))
      (fun _ => (["target@example.org"], true)) "alice").1 = false :=
  ⟨rfl, rfl⟩

/-- C4 amended: when the inner agent reports without error, `UserExists`
returns true exactly when the inner agent reports existence or the chain
resolves a rule (and no error); when the inner agent fails, `UserExists`
returns false with that error. -/
theorem mailAuth_userExists_c4 :
    (∀ (inner : String → Bool × Option String)
       (resolve : String → List String × Bool) (u : String) (b : Bool),
      inner u = (b, none) →
      mailAuthUserExists inner resolve u = (b || (resolve u).2, none)) ∧
    (∀ (inner : String → Bool × Option String)
       (resolve : String → List String × Bool) (u : String) (b : Bool) (e : String),
      inner u = (b, some e) →
      mailAuthUserExists inner resolve u = (false, some e)) := by
  constructor
  · intro inner resolve u b h
    cases b <;> simp [mailAuthUserExists, h]
  · intro inner resolve u b e h
    simp [mailAuthUserExists, h]

/-- Witness for C4 (amended): both branches at concrete agents. -/
theorem mailAuth_userExists_c4_witness :
    mailAuthUserExists (fun _ => (false, none)) (fun _ => (["t@x"], true)) "alice" =
      (false || ((fun (_ : String) => (["t@x"], true)) "alice").2, none) ∧
    mailAuthUserExists (fun _ => (true, some "boom")) (fun _ => ([], false)) "bob" =
      (false, some "boom") :=
  ⟨mailAuth_userExists_c4.1 _ _ "alice" false rfl,
   mailAuth_userExists_c4.2 _ _ "bob" true "boom" rfl⟩

/-- C10: when the inner agent's `UserExists` fails, the decorator returns
`(false, that error)`, and the result does not depend on the forward chain
at all (any two chain resolutions give the same result). -/
theorem mailAuth_userExists_c10 :
    ∀ (inner : String → Bool × Option String) (u : String) (b : Bool) (e : String),
      inner u = (b, some e) →
      ∀ resolve resolve' : String → List String × Bool,
        mailAuthUserExists inner resolve u = (false, some e) ∧
        mailAuthUserExists inner resolve u = mailAuthUserExists inner resolve' u := by
  intro inner u b e h resolve resolve'
  constructor
  · simp [mailAuthUserExists, h]
  · simp [mailAuthUserExists, h]

/-- Witness for C10: a failing inner agent with two different chains. -/
theorem mailAuth_userExists_c10_witness :
    mailAuthUserExists (fun _ => (true, some "io")) (fun _ => (["t@x"], true)) "alice" =
      (false, some "io") ∧
    mailAuthUserExists (fun _ => (true, some "io")) (fun _ => (["t@x"], true)) "alice" =
      mailAuthUserExists (fun _ => (true, some "io")) (fun _ => ([], false)) "alice" :=
  mailAuth_userExists_c10 _ "alice" true "io" rfl _ _

/-- C1 fails on the code: authenticating the specification's own example
`alice+folder@example.com` against a provider serving `example.com` (whose
agent returns a session for the base `alice`) yields a session whose Mailbox
is the bare local part `alice` — `AuthenticateWithDomain` assigns
`session.User.Mailbox = base` — and not the fully-qualified
`alice@example.com` that the claim (and the repository's own router test)
requires.  The extension is stripped as claimed. -/
theorem authRouter_mailbox_c1_bug :
    ((AuthenticateWithDomain (some exampleProvider) none
        "alice+folder@example.com" "secret").toOption.map
      (fun r => (r.Session.User.map User.Mailbox, r.Extension))) =
      some (some "alice", "folder") ∧
    (some "alice" : Option String) ≠ some ("alice" ++ "@" ++ "example.com") := by
  exact ⟨rfl, by decide⟩

/-- C7: `mergeConfig` starts from `base` and replaces each scalar/map field
exactly when the override's value is non-zero (non-empty string, non-empty
map, non-zero gid), leaving every other field — including the `Forwards`
declaration — equal to `base`'s; and the effective forwarding declaration of
a loaded domain is taken wholesale from the override exactly when the
override declares one (a declared-but-empty map yields an empty domain map
and suppresses the system default), never merged key by key. -/
theorem mergeConfig_c7 :
    (∀ base oride : DomainConfig,
      (oride.Auth.Type' = "" → (mergeConfig base oride).Auth.Type' = base.Auth.Type') ∧
      (oride.Auth.Type' ≠ "" → (mergeConfig base oride).Auth.Type' = oride.Auth.Type') ∧
      (oride.Auth.CredentialBackend = "" →
        (mergeConfig base oride).Auth.CredentialBackend = base.Auth.CredentialBackend) ∧
      (oride.Auth.CredentialBackend ≠ "" →
        (mergeConfig base oride).Auth.CredentialBackend = oride.Auth.CredentialBackend) ∧
      (oride.Auth.KeyBackend = "" →
        (mergeConfig base oride).Auth.KeyBackend = base.Auth.KeyBackend) ∧
      (oride.Auth.KeyBackend ≠ "" →
        (mergeConfig base oride).Auth.KeyBackend = oride.Auth.KeyBackend) ∧
      (oride.Auth.Options = [] →
        (mergeConfig base oride).Auth.Options = base.Auth.Options) ∧
      (oride.Auth.Options ≠ [] →
        (mergeConfig base oride).Auth.Options = oride.Auth.Options) ∧
      (oride.MsgStore.Type' = "" →
        (mergeConfig base oride).MsgStore.Type' = base.MsgStore.Type') ∧
      (oride.MsgStore.Type' ≠ "" →
        (mergeConfig base oride).MsgStore.Type' = oride.MsgStore.Type') ∧
      (oride.MsgStore.BasePath = "" →
        (mergeConfig base oride).MsgStore.BasePath = base.MsgStore.BasePath) ∧
      (oride.MsgStore.BasePath ≠ "" →
        (mergeConfig base oride).MsgStore.BasePath = oride.MsgStore.BasePath) ∧
      (oride.MsgStore.Options = [] →
        (mergeConfig base oride).MsgStore.Options = base.MsgStore.Options) ∧
      (oride.MsgStore.Options ≠ [] →
        (mergeConfig base oride).MsgStore.Options = oride.MsgStore.Options) ∧
      (oride.Gid = 0 → (mergeConfig base oride).Gid = base.Gid) ∧
      (oride.Gid ≠ 0 → (mergeConfig base oride).Gid = oride.Gid) ∧
      (mergeConfig base oride).Forwards = base.Forwards) ∧
    (∀ (bd : Option DomainConfig) (ov : DomainConfig) (fw : List (String × String)),
      ov.Forwards = some fw →
      effectiveForwards bd (some ov) = (FromMap (some fw), FromMap none)) ∧
    (∀ (bd : DomainConfig) (ov : DomainConfig),
      ov.Forwards = none →
      effectiveForwards (some bd) (some ov) = (FromMap none, FromMap bd.Forwards)) ∧
    (∀ ov : DomainConfig,
      ov.Forwards = none →
      effectiveForwards none (some ov) = (FromMap none, FromMap none)) := by
  refine ⟨?_, ?_, ?_, ?_⟩
  · intro base oride
    refine ⟨?_, ?_, ?_, ?_, ?_, ?_, ?_, ?_, ?_, ?_, ?_, ?_, ?_, ?_, ?_, ?_, rfl⟩ <;>
      intro h <;>
      simp [mergeConfig, h, List.length_pos]
  · intro bd ov fw h
    simp [effectiveForwards, h]
  · intro bd ov h
    simp [effectiveForwards, h]
  · intro ov h
    simp [effectiveForwards, h]

/-- Witness for C7: both directions of each replacement rule at concrete
configurations (an all-zero override leaves the base intact; a fully
populated override replaces every scalar field; a declared-but-empty
forwards map suppresses the default, an undeclared one inherits it). -/
theorem mergeConfig_c7_witness :
    mergeConfig
      ⟨⟨"passwd", "cred", "key", [("a", "1")]⟩, ⟨"maildir", "mail", [("b", "2")]⟩, 7,
        some [("x", "t@u")]⟩
      ⟨⟨"", "", "", []⟩, ⟨"", "", []⟩, 0, none⟩ =
      ⟨⟨"passwd", "cred", "key", [("a", "1")]⟩, ⟨"maildir", "mail", [("b", "2")]⟩, 7,
        some [("x", "t@u")]⟩ ∧
    mergeConfig
      ⟨⟨"passwd", "cred", "key", [("a", "1")]⟩, ⟨"maildir", "mail", [("b", "2")]⟩, 7, none⟩
      ⟨⟨"ldap", "cred2", "key2", [("c", "3")]⟩, ⟨"mbox", "mail2", [("d", "4")]⟩, 9,
        some [("y", "v@w")]⟩ =
      ⟨⟨"ldap", "cred2", "key2", [("c", "3")]⟩, ⟨"mbox", "mail2", [("d", "4")]⟩, 9, none⟩ ∧
    effectiveForwards
      (some ⟨⟨"", "", "", []⟩, ⟨"", "", []⟩, 0, some [("*", "c@d")]⟩)
      (some ⟨⟨"", "", "", []⟩, ⟨"", "", []⟩, 0, some []⟩) =
      (FromMap (some []), FromMap none) ∧
    effectiveForwards
      (some ⟨⟨"", "", "", []⟩, ⟨"", "", []⟩, 0, some [("*", "c@d")]⟩)
      (some ⟨⟨"", "", "", []⟩, ⟨"", "", []⟩, 0, none⟩) =
      (FromMap none, FromMap (some [("*", "c@d")])) := by
  have h1 := mergeConfig_c7.1
    ⟨⟨"passwd", "cred", "key", [("a", "1")]⟩, ⟨"maildir", "mail", [("b", "2")]⟩, 7,
      some [("x", "t@u")]⟩
    ⟨⟨"", "", "", []⟩, ⟨"", "", []⟩, 0, none⟩
  have h2 := mergeConfig_c7.1
    ⟨⟨"passwd", "cred", "key", [("a", "1")]⟩, ⟨"maildir", "mail", [("b", "2")]⟩, 7, none⟩
    ⟨⟨"ldap", "cred2", "key2", [("c", "3")]⟩, ⟨"mbox", "mail2", [("d", "4")]⟩, 9,
      some [("y", "v@w")]⟩
  have h3 := mergeConfig_c7.2.1
    (some ⟨⟨"", "", "", []⟩, ⟨"", "", []⟩, 0, some [("*", "c@d")]⟩)
    ⟨⟨"", "", "", []⟩, ⟨"", "", []⟩, 0, some []⟩ [] rfl
  have h4 := mergeConfig_c7.2.2.1
    ⟨⟨"", "", "", []⟩, ⟨"", "", []⟩, 0, some [("*", "c@d")]⟩
    ⟨⟨"", "", "", []⟩, ⟨"", "", []⟩, 0, none⟩ rfl
  refine ⟨?_, ?_, h3, h4⟩
  · have ha := h1.1 rfl
    have hb := h1.2.2.1 rfl
    have hc := h1.2.2.2.2.1 rfl
    have hd := h1.2.2.2.2.2.2.1 rfl
    have he := h1.2.2.2.2.2.2.2.2.1 rfl
    have hf := h1.2.2.2.2.2.2.2.2.2.2.1 rfl
    have hg := h1.2.2.2.2.2.2.2.2.2.2.2.2.1 rfl
    have hh := h1.2.2.2.2.2.2.2.2.2.2.2.2.2.2.1 rfl
    have hi := h1.2.2.2.2.2.2.2.2.2.2.2.2.2.2.2.2
    exact DomainConfig.ext
      (DomainAuthConfig.ext ha hb hc hd) (DomainMsgStoreConfig.ext he hf hg) hh hi
  · have ha := h2.2.1 (by decide)
    have hb := h2.2.2.2.1 (by decide)
    have hc := h2.2.2.2.2.2.1 (by decide)
    have hd := h2.2.2.2.2.2.2.2.1 (by decide)
    have he := h2.2.2.2.2.2.2.2.2.2.1 (by decide)
    have hf := h2.2.2.2.2.2.2.2.2.2.2.2.1 (by decide)
    have hg := h2.2.2.2.2.2.2.2.2.2.2.2.2.2.1 (by decide)
    have hh := h2.2.2.2.2.2.2.2.2.2.2.2.2.2.2.2.1 (by decide)
    have hi := h2.2.2.2.2.2.2.2.2.2.2.2.2.2.2.2.2
    exact DomainConfig.ext
      (DomainAuthConfig.ext ha hb hc hd) (DomainMsgStoreConfig.ext he hf hg) hh hi

theorem assocLookup_insert_self {α : Type} (l : List (String × α)) (k : String) (v : α) :
    assocLookup (assocInsert l k v) k = some v := by
  induction l with
  | nil => simp [assocInsert, assocLookup]
  | cons p rest ih =>
    obtain ⟨k2, v2⟩ := p
    by_cases h : k2 = k
    · subst h; simp [assocInsert, assocLookup]
    · simp [assocInsert, assocLookup, h, ih]

theorem assocLookup_insert_ne {α : Type} (l : List (String × α)) (k k2 : String) (v : α)
    (h : k ≠ k2) : assocLookup (assocInsert l k v) k2 = assocLookup l k2 := by
  induction l with
  | nil => simp [assocInsert, assocLookup, h]
  | cons p rest ih =>
    obtain ⟨k3, v3⟩ := p
    by_cases h3 : k3 = k
    · subst h3; simp [assocInsert, assocLookup, h]
    · simp [assocInsert, assocLookup, h3, ih]

theorem loadLine_blank (m : ForwardMap) (raw : String) (h : strTrim raw = "") :
    loadLine m raw = m := by
  simp [loadLine, h]

theorem loadLine_comment (m : ForwardMap) (raw : String)
    (h : strStartsWith '#' (strTrim raw) = true) : loadLine m raw = m := by
  simp [loadLine, h]

theorem loadLine_nocolon (m : ForwardMap) (raw : String)
    (h : cutString ':' (strTrim raw) = none) : loadLine m raw = m := by
  by_cases hb : (strTrim raw == "" || strStartsWith '#' (strTrim raw)) = true
  · simp [loadLine, hb]
  · simp only [loadLine, hb]
    rw [h]
    simp

theorem loadLine_empty_targets (m : ForwardMap) (raw ks vs : String)
    (h1 : cutString ':' (strTrim raw) = some (ks, vs))
    (h2 : parseTargets vs = []) : loadLine m raw = m := by
  by_cases hb : (strTrim raw == "" || strStartsWith '#' (strTrim raw)) = true
  · simp [loadLine, hb]
  · simp only [loadLine, hb]
    rw [h1]
    simp [h2]

theorem loadLine_wildcard (m : ForwardMap) (raw ks vs : String)
    (h0 : strTrim raw ≠ "") (h0b : strStartsWith '#' (strTrim raw) = false)
    (h1 : cutString ':' (strTrim raw) = some (ks, vs))
    (h2 : parseTargets vs ≠ [])
    (h3 : strTrim (strLower ks) = "*") :
    loadLine m raw = { m with catchall := parseTargets vs } := by
  have hb : (strTrim raw == "" || strStartsWith '#' (strTrim raw)) = false := by
    simp [h0, h0b]
  simp only [loadLine, hb]
  rw [h1]
  have h2e : (parseTargets vs).isEmpty = false := by
    cases hx : parseTargets vs with
    | nil => exact absurd hx h2
    | cons a l => rfl
  simp [h2e, h3]

theorem loadLine_exact_rule (m : ForwardMap) (raw ks vs : String)
    (h0 : strTrim raw ≠ "") (h0b : strStartsWith '#' (strTrim raw) = false)
    (h1 : cutString ':' (strTrim raw) = some (ks, vs))
    (h2 : parseTargets vs ≠ [])
    (h3 : strTrim (strLower ks) ≠ "*") :
    loadLine m raw =
      { m with exact := assocInsert m.exact (strTrim (strLower ks)) (parseTargets vs) } := by
  have hb : (strTrim raw == "" || strStartsWith '#' (strTrim raw)) = false := by
    simp [h0, h0b]
  simp only [loadLine, hb]
  rw [h1]
  have h2e : (parseTargets vs).isEmpty = false := by
    cases hx : parseTargets vs with
    | nil => exact absurd hx h2
    | cons a l => rfl
  simp [h2e, h3]

theorem loadLine_exact_invariant (m : ForwardMap) (raw : String)
    (h : ∀ k ts, assocLookup m.exact k = some ts → ts ≠ [] ∧ k ≠ "*") :
    ∀ k ts, assocLookup (loadLine m raw).exact k = some ts → ts ≠ [] ∧ k ≠ "*" := by
  by_cases hbl : strTrim raw = ""
  · rw [loadLine_blank m raw hbl]; exact h
  · by_cases hcm : strStartsWith '#' (strTrim raw) = true
    · rw [loadLine_comment m raw hcm]; exact h
    · have hcm2 : strStartsWith '#' (strTrim raw) = false := by
        cases hx : strStartsWith '#' (strTrim raw)
        · rfl
        · exact absurd hx hcm
      cases hc : cutString ':' (strTrim raw) with
      | none => rw [loadLine_nocolon m raw hc]; exact h
      | some kv =>
        obtain ⟨ks, vs⟩ := kv
        by_cases hts : parseTargets vs = []
        · rw [loadLine_empty_targets m raw ks vs hc hts]; exact h
        · by_cases hst : strTrim (strLower ks) = "*"
          · rw [loadLine_wildcard m raw ks vs hbl hcm2 hc hts hst]; exact h
          · rw [loadLine_exact_rule m raw ks vs hbl hcm2 hc hts hst]
            intro k ts hk
            by_cases hkk : strTrim (strLower ks) = k
            · subst hkk
              rw [assocLookup_insert_self] at hk
              cases hk
              exact ⟨hts, hst⟩
            · rw [assocLookup_insert_ne _ _ _ _ hkk] at hk
              exact h k ts hk

theorem load_foldl_invariant (lines : List String) :
    ∀ m : ForwardMap, (∀ k ts, assocLookup m.exact k = some ts → ts ≠ [] ∧ k ≠ "*") →
    ∀ k ts, assocLookup ((lines.foldl loadLine m).exact) k = some ts → ts ≠ [] ∧ k ≠ "*" := by
  induction lines with
  | nil => intro m h; exact h
  | cons raw rest ih =>
    intro m h
    exact ih (loadLine m raw) (loadLine_exact_invariant m raw h)

/-- C6: `Load` ignores blank lines and `#` comments, silently skips lines
with no colon, cuts each remaining line at its first colon, keeps only
targets that survive trimming and case folding (a line with none creates no
entry), stores the key `*` as the wildcard and never as an exact key,
treats a missing file as a valid empty map, and consequently every exact
key of the resulting map has a non-empty target list. -/
theorem forwards_load_c6 :
    (∀ (m : ForwardMap) (raw : String), strTrim raw = "" → loadLine m raw = m) ∧
    (∀ (m : ForwardMap) (raw : String),
      strStartsWith '#' (strTrim raw) = true → loadLine m raw = m) ∧
    (∀ (m : ForwardMap) (raw : String),
      cutString ':' (strTrim raw) = none → loadLine m raw = m) ∧
    (∀ (m : ForwardMap) (raw ks vs : String),
      cutString ':' (strTrim raw) = some (ks, vs) → parseTargets vs = [] →
      loadLine m raw = m) ∧
    (∀ (m : ForwardMap) (raw ks vs : String),
      strTrim raw ≠ "" → strStartsWith '#' (strTrim raw) = false →
      cutString ':' (strTrim raw) = some (ks, vs) → parseTargets vs ≠ [] →
      strTrim (strLower ks) = "*" →
      loadLine m raw = { m with catchall := parseTargets vs }) ∧
    (∀ (m : ForwardMap) (raw ks vs : String),
      strTrim raw ≠ "" → strStartsWith '#' (strTrim raw) = false →
      cutString ':' (strTrim raw) = some (ks, vs) → parseTargets vs ≠ [] →
      strTrim (strLower ks) ≠ "*" →
      loadLine m raw =
        { m with exact := assocInsert m.exact (strTrim (strLower ks)) (parseTargets vs) }) ∧
    (∀ v t : String, t ∈ parseTargets v ↔
      ((∃ u ∈ strSplitOn ',' v, strTrim (strLower u) = t) ∧ t ≠ "")) ∧
    Load FileResult.missing = Except.ok { exact := [], catchall := [] } ∧
    (∀ (lines : List String) (fm : ForwardMap),
      Load (FileResult.content lines) = Except.ok fm →
      ∀ k ts, assocLookup fm.exact k = some ts → ts ≠ [] ∧ k ≠ "*") := by
  refine ⟨loadLine_blank, loadLine_comment, loadLine_nocolon, loadLine_empty_targets,
    loadLine_wildcard, loadLine_exact_rule, ?_, rfl, ?_⟩
  · intro v t
    constructor
    · intro ht
      rw [parseTargets, List.mem_filter] at ht
      obtain ⟨hmem, hne⟩ := ht
      rw [List.mem_map] at hmem
      obtain ⟨u, hu, hut⟩ := hmem
      exact ⟨⟨u, hu, hut⟩, by simpa using hne⟩
    · intro ⟨⟨u, hu, hut⟩, hne⟩
      rw [parseTargets, List.mem_filter]
      refine ⟨List.mem_map.mpr ⟨u, hu, hut⟩, by simpa using hne⟩
  · intro lines fm h
    cases h
    exact load_foldl_invariant lines { exact := [], catchall := [] }
      (by intro k ts hk; cases hk)

/-- Witness for C6: each conjunct applied at a concrete line or file (a
blank line, a comment, a colon-free line, a line with only empty targets,
a wildcard line, an exact rule line, target membership, and the invariant
on a one-line file). -/
theorem forwards_load_c6_witness :
    loadLine { exact := [], catchall := [] } "   " = { exact := [], catchall := [] } ∧
    loadLine { exact := [], catchall := [] } "# note" = { exact := [], catchall := [] } ∧
    loadLine { exact := [], catchall := [] } "nocolon" = { exact := [], catchall := [] } ∧
    loadLine { exact := [], catchall := [] } "a: ,," = { exact := [], catchall := [] } ∧
    loadLine { exact := [], catchall := [] } "*:c@d" =
      { exact := ([] : List (String × List String)), catchall := ["c@d"] } ∧
    loadLine { exact := [], catchall := [] } "Alice:B@C , d@e" =
      { exact := assocInsert ([] : List (String × List String)) "alice" ["b@c", "d@e"],
        catchall := [] } ∧
    ("b@c" ∈ parseTargets "B@C , d@e" ↔
      ((∃ u ∈ strSplitOn ',' "B@C , d@e", strTrim (strLower u) = "b@c") ∧ "b@c" ≠ "")) ∧
    (∀ k ts, assocLookup
        (match Load (FileResult.content ["alice:b@c"]) with
         | Except.ok fm => fm
         | Except.error _ => { exact := [], catchall := [] }).exact k = some ts →
      ts ≠ [] ∧ k ≠ "*") := by
  refine ⟨forwards_load_c6.1 _ "   " (by decide),
    forwards_load_c6.2.1 _ "# note" (by decide),
    forwards_load_c6.2.2.1 _ "nocolon" (by decide),
    forwards_load_c6.2.2.2.1 _ "a: ,," "a" " ,," (by decide) (by decide),
    ?_, ?_,
    forwards_load_c6.2.2.2.2.2.2.1 "B@C , d@e" "b@c",
    ?_⟩
  · have := forwards_load_c6.2.2.2.2.1 { exact := [], catchall := [] } "*:c@d" "*" "c@d"
      (by decide) (by decide) (by decide) (by decide) (by decide)
    rw [this]
    decide
  · have := forwards_load_c6.2.2.2.2.2.1 { exact := [], catchall := [] } "Alice:B@C , d@e"
      "Alice" "B@C , d@e" (by decide) (by decide) (by decide) (by decide) (by decide)
    rw [this]
    decide
  · exact forwards_load_c6.2.2.2.2.2.2.2.2 ["alice:b@c"] _ rfl

theorem assocLookup_append_left {α : Type} (l1 l2 : List (String × α)) (k : String) (v : α)
    (h : assocLookup l1 k = some v) : assocLookup (l1 ++ l2) k = some v := by
  induction l1 with
  | nil => cases h
  | cons p rest ih =>
    obtain ⟨k2, v2⟩ := p
    by_cases hk : k2 = k
    · subst hk
      simp [assocLookup] at h ⊢
      exact h
    · simp [assocLookup, hk] at h ⊢
      exact ih h

theorem assocLookup_append_right {α : Type} (l1 l2 : List (String × α)) (k : String)
    (h : assocLookup l1 k = none) : assocLookup (l1 ++ l2) k = assocLookup l2 k := by
  induction l1 with
  | nil => rfl
  | cons p rest ih =>
    obtain ⟨k2, v2⟩ := p
    by_cases hk : k2 = k
    · subst hk
      simp [assocLookup] at h
    · simp [assocLookup, hk] at h ⊢
      exact ih h

theorem assocLookup_none_not_mem {α : Type} (l : List (String × α)) (k : String)
    (h : assocLookup l k = none) : k ∉ l.map Prod.fst := by
  induction l with
  | nil => simp
  | cons p rest ih =>
    obtain ⟨k2, v2⟩ := p
    by_cases hk : k2 = k
    · subst hk
      simp [assocLookup] at h
    · simp only [assocLookup, if_neg hk] at h
      simp only [List.map_cons, List.mem_cons]
      intro hor
      rcases hor with h1 | h2
      · exact hk h1.symm
      · exact ih h h2

theorem getDomain_hit (e : String → Bool) (b : String → Option Nat)
    (s : RegState) (n0 : String) (d : Nat)
    (h : assocLookup s.cache (strLower n0) = some d) :
    GetDomain e b s n0 = (some d, s) := by
  simp [GetDomain, h]

theorem getDomain_cache_some (e : String → Bool) (b : String → Option Nat)
    (s : RegState) (n0 : String) (d : Nat) (s1 : RegState)
    (h : GetDomain e b s n0 = (some d, s1)) :
    assocLookup s1.cache (strLower n0) = some d := by
  simp only [GetDomain] at h
  cases hl : assocLookup s.cache (strLower n0) with
  | some d2 =>
    rw [hl] at h
    simp at h
    obtain ⟨hd, hs⟩ := h
    subst hd
    subst hs
    exact hl
  | none =>
    rw [hl] at h
    by_cases he : e (strLower n0) = true
    · simp only [he, Bool.not_true, Bool.false_eq_true, if_false] at h
      cases hb2 : b (strLower n0) with
      | none =>
        rw [hb2] at h
        simp at h
      | some d2 =>
        rw [hb2] at h
        simp only [finishBuild, hl] at h
        simp at h
        obtain ⟨hd, hs⟩ := h
        subst hd
        subst hs
        rw [assocLookup_append_right _ _ _ hl]
        simp [assocLookup]
    · have he2 : e (strLower n0) = false := by
        cases hx : e (strLower n0)
        · rfl
        · exact absurd hx he
      rw [he2] at h
      simp at h

theorem getDomain_preserves (e : String → Bool) (b : String → Option Nat)
    (s : RegState) (m n : String) (d : Nat)
    (h : assocLookup s.cache n = some d) :
    assocLookup ((GetDomain e b s m).2).cache n = some d := by
  simp only [GetDomain]
  cases hl : assocLookup s.cache (strLower m) with
  | some d2 => simpa using h
  | none =>
    by_cases he : e (strLower m) = true
    · simp only [he, Bool.not_true, Bool.false_eq_true, if_false]
      cases hb2 : b (strLower m) with
      | none => simpa using h
      | some d2 =>
        simp only [finishBuild, hl]
        simpa using assocLookup_append_left s.cache [(strLower m, d2)] n d h
    · have he2 : e (strLower m) = false := by
        cases hx : e (strLower m)
        · rfl
        · exact absurd hx he
      simp only [he2, Bool.not_false, if_true]
      exact h

theorem runGets_preserves (e : String → Bool) (b : String → Option Nat)
    (ops : List String) :
    ∀ (s : RegState) (n : String) (d : Nat), assocLookup s.cache n = some d →
      assocLookup (runGets e b s ops).cache n = some d := by
  induction ops with
  | nil => intro s n d h; exact h
  | cons m rest ih =>
    intro s n d h
    exact ih _ n d (getDomain_preserves e b s m n d h)

theorem getDomain_nodup (e : String → Bool) (b : String → Option Nat)
    (s : RegState) (n0 : String) (h : (s.cache.map Prod.fst).Nodup) :
    (((GetDomain e b s n0).2).cache.map Prod.fst).Nodup := by
  simp only [GetDomain]
  cases hl : assocLookup s.cache (strLower n0) with
  | some d2 => simpa using h
  | none =>
    by_cases he : e (strLower n0) = true
    · simp only [he, Bool.not_true, Bool.false_eq_true, if_false]
      cases hb2 : b (strLower n0) with
      | none => simpa using h
      | some d2 =>
        simp only [finishBuild, hl, List.map_append]
        refine List.Nodup.append h (by simp) ?_
        intro a ha hb3
        simp at hb3
        subst hb3
        exact assocLookup_none_not_mem s.cache (strLower n0) hl ha
    · have he2 : e (strLower n0) = false := by
        cases hx : e (strLower n0)
        · rfl
        · exact absurd hx he
      simp only [he2, Bool.not_false, if_true]
      exact h

/-- C8: once `GetDomain` has returned a Domain for a name, every later
`GetDomain` call for the same case-folded name — after any interleaved
sequence of other `GetDomain` calls — returns that same Domain; the
insert-or-discard step closes and discards a freshly built Domain exactly
when another entry already exists for the name (returning the existing
one), and inserts it otherwise; `GetDomain` keeps at most one entry per
case-folded name (key uniqueness is preserved) and never removes an entry;
only `Close` destroys the cache, closing every cached Domain and clearing
the map. -/
theorem registry_cache_c8 :
    (∀ (e : String → Bool) (b : String → Option Nat) (s : RegState) (n0 : String)
       (d : Nat) (s1 : RegState),
      GetDomain e b s n0 = (some d, s1) →
      ∀ (ops : List String) (n1 : String), strLower n1 = strLower n0 →
        (GetDomain e b (runGets e b s1 ops) n1).1 = some d) ∧
    (∀ (s : RegState) (name : String) (built ex : Nat),
      assocLookup s.cache name = some ex →
      finishBuild s name built = (some ex, { s with closed := s.closed ++ [built] })) ∧
    (∀ (s : RegState) (name : String) (built : Nat),
      assocLookup s.cache name = none →
      finishBuild s name built = (some built, { s with cache := s.cache ++ [(name, built)] })) ∧
    (∀ (e : String → Bool) (b : String → Option Nat) (s : RegState) (n0 : String),
      (s.cache.map Prod.fst).Nodup →
      (((GetDomain e b s n0).2).cache.map Prod.fst).Nodup) ∧
    (∀ (e : String → Bool) (b : String → Option Nat) (s : RegState) (m n : String) (d : Nat),
      assocLookup s.cache n = some d →
      assocLookup ((GetDomain e b s m).2).cache n = some d) ∧
    (∀ s : RegState, (CloseProvider s).cache = [] ∧
      (CloseProvider s).closed = s.closed ++ s.cache.map Prod.snd) := by
  refine ⟨?_, ?_, ?_, getDomain_nodup, getDomain_preserves, fun s => ⟨rfl, rfl⟩⟩
  · intro e b s n0 d s1 h ops n1 hn
    have hc : assocLookup s1.cache (strLower n0) = some d :=
      getDomain_cache_some e b s n0 d s1 h
    have hc2 : assocLookup (runGets e b s1 ops).cache (strLower n1) = some d := by
      rw [hn]
      exact runGets_preserves e b ops s1 (strLower n0) d hc
    rw [getDomain_hit e b (runGets e b s1 ops) n1 d hc2]
  · intro s name built ex h
    simp [finishBuild, h]
  · intro s name built h
    simp [finishBuild, h]

/-- Witness for C8: a two-tenant registry where example.com is fetched once
and then re-fetched in different letter case after an interleaved fetch of
other.org; plus concrete insert-or-discard, uniqueness, preservation and
close instances. -/
theorem registry_cache_c8_witness :
    (GetDomain (fun _ => true) (fun n => if n == "example.com" then some 1 else some 2)
      (runGets (fun _ => true) (fun n => if n == "example.com" then some 1 else some 2)
        (GetDomain (fun _ => true) (fun n => if n == "example.com" then some 1 else some 2)
          ⟨[], []⟩ "Example.com").2 ["other.org"]) "EXAMPLE.COM").1 = some 1 ∧
    finishBuild ⟨[("example.com", 1)], []⟩ "example.com" 5 =
      (some 1, { cache := [("example.com", 1)], closed := ([] : List Nat) ++ [5] }) ∧
    finishBuild ⟨[("example.com", 1)], []⟩ "other.org" 5 =
      (some 5, { cache := [("example.com", 1)] ++ [("other.org", 5)], closed := [] }) ∧
    ((((GetDomain (fun _ => true) (fun _ => some 3)
        ⟨[("example.com", 1)], []⟩ "other.org").2).cache.map Prod.fst).Nodup) ∧
    assocLookup (((GetDomain (fun _ => true) (fun _ => some 3)
      ⟨[("example.com", 1)], []⟩ "other.org").2).cache) "example.com" = some 1 ∧
    ((CloseProvider ⟨[("example.com", 1), ("other.org", 5)], [9]⟩).cache = [] ∧
     (CloseProvider ⟨[("example.com", 1), ("other.org", 5)], [9]⟩).closed =
       [9] ++ [("example.com", 1), ("other.org", 5)].map Prod.snd) :=
  ⟨registry_cache_c8.1 _ _ ⟨[], []⟩ "Example.com" 1 _ (by decide) ["other.org"]
      "EXAMPLE.COM" (by decide),
   registry_cache_c8.2.1 ⟨[("example.com", 1)], []⟩ "example.com" 5 1 (by decide),
   registry_cache_c8.2.2.1 ⟨[("example.com", 1)], []⟩ "other.org" 5 (by decide),
   registry_cache_c8.2.2.2.1 _ _ ⟨[("example.com", 1)], []⟩ "other.org" (by decide),
   registry_cache_c8.2.2.2.2.1 _ _ ⟨[("example.com", 1)], []⟩ "other.org" "example.com" 1
     (by decide),
   registry_cache_c8.2.2.2.2.2 ⟨[("example.com", 1), ("other.org", 5)], [9]⟩⟩

theorem fanOut_spec (provider : String → Option DomainEntry)
    (dd : String → Envelope → Body → Option String)
    (env : Envelope) (data : Body) :
    ∀ (targets : List String) (acc : List DeliveryCall × List FwdErr),
      targets.foldl (fanOutStep provider dd env data) acc =
        (acc.1 ++ targets.filterMap (specRoutableCall provider env data),
         acc.2 ++ targets.filterMap (specTargetErr provider dd env data)) := by
  intro targets
  induction targets with
  | nil => intro acc; simp
  | cons t rest ih =>
    intro acc
    rw [List.foldl_cons, ih]
    by_cases h1 : (SplitUsername t).2 = ""
    · simp [fanOutStep, specRoutableCall, specTargetErr, h1]
    · cases h2 : provider (SplitUsername t).2 with
      | none => simp [fanOutStep, specRoutableCall, specTargetErr, h1, h2]
      | some dm =>
        by_cases h3 : dm.hasDeliveryAgent = true
        · cases h4 : dd (SplitUsername t).2 { env with Recipients := [t] } data with
          | none => simp [fanOutStep, specRoutableCall, specTargetErr, h1, h2, h3, h4]
          | some err => simp [fanOutStep, specRoutableCall, specTargetErr, h1, h2, h3, h4]
        · have h3f : dm.hasDeliveryAgent = false := by
            cases hx : dm.hasDeliveryAgent
            · rfl
            · exact absurd hx h3
          simp [fanOutStep, specRoutableCall, specTargetErr, h1, h2, h3f]

/-- C3: with no recipients, or when the chain yields no rule for the first
recipient's local part, `Deliver` delegates to the inner agent unchanged;
when a rule yields targets, the calls made are exactly the routable targets
in order — each receiving a copy of the envelope with the recipients
replaced by that single target and the buffered body — unroutable targets
(no domain part, or domain absent from the registry or without a delivery
agent) contribute per-target errors without stopping the loop, and the
returned error is the join of the per-target errors, `none` iff none
occurred. -/
theorem smart_deliver_c3 :
    (∀ (resolve : String → List String × Bool) (provider : String → Option DomainEntry)
       (innerDeliver : Envelope → Body → Option String)
       (dd : String → Envelope → Body → Option String) (env : Envelope) (msg : Body),
      env.Recipients = [] →
      Deliver resolve provider innerDeliver dd env msg =
        ([⟨AgentRef.inner, env, msg⟩], (innerDeliver env msg).map DeliverError.agentErr)) ∧
    (∀ (resolve : String → List String × Bool) (provider : String → Option DomainEntry)
       (innerDeliver : Envelope → Body → Option String)
       (dd : String → Envelope → Body → Option String) (env : Envelope) (msg : Body)
       (rcpt : String) (rest : List String),
      env.Recipients = rcpt :: rest →
      (resolve (SplitUsername rcpt).1).2 = false →
      Deliver resolve provider innerDeliver dd env msg =
        ([⟨AgentRef.inner, env, msg⟩], (innerDeliver env msg).map DeliverError.agentErr)) ∧
    (∀ (resolve : String → List String × Bool) (provider : String → Option DomainEntry)
       (innerDeliver : Envelope → Body → Option String)
       (dd : String → Envelope → Body → Option String) (env : Envelope) (msg : Body)
       (rcpt : String) (rest targets : List String),
      env.Recipients = rcpt :: rest →
      resolve (SplitUsername rcpt).1 = (targets, true) →
      Deliver resolve provider innerDeliver dd env msg =
        (targets.filterMap (specRoutableCall provider env msg),
         if (targets.filterMap (specTargetErr provider dd env msg)).isEmpty then none
         else some (DeliverError.joined (targets.filterMap (specTargetErr provider dd env msg))))) ∧
    (∀ (resolve : String → List String × Bool) (provider : String → Option DomainEntry)
       (innerDeliver : Envelope → Body → Option String)
       (dd : String → Envelope → Body → Option String) (env : Envelope) (msg : Body)
       (rcpt : String) (rest targets : List String),
      env.Recipients = rcpt :: rest →
      resolve (SplitUsername rcpt).1 = (targets, true) →
      ((Deliver resolve provider innerDeliver dd env msg).2 = none ↔
        targets.filterMap (specTargetErr provider dd env msg) = [])) := by
  refine ⟨?_, ?_, ?_, ?_⟩
  · intro resolve provider innerDeliver dd env msg h
    simp [Deliver, h]
  · intro resolve provider innerDeliver dd env msg rcpt rest h1 h2
    cases hr : resolve (SplitUsername rcpt).1 with
    | mk ts bb =>
      rw [hr] at h2
      simp at h2
      subst h2
      simp [Deliver, h1, hr]
  · intro resolve provider innerDeliver dd env msg rcpt rest targets h1 h2
    simp only [Deliver, h1, h2, fanOut, fanOut_spec provider dd env msg targets ([], [])]
    simp
  · intro resolve provider innerDeliver dd env msg rcpt rest targets h1 h2
    simp only [Deliver, h1, h2, fanOut, fanOut_spec provider dd env msg targets ([], [])]
    cases hx : targets.filterMap (specTargetErr provider dd env msg) with
    | nil => simp
    | cons a l => simp

/-- Witness for C3: an envelope for alice whose rule fans out to a target
with no domain, a target on an unserved domain, and a target on a served
domain, plus the no-recipient and no-rule cases. -/
theorem smart_deliver_c3_witness :
    Deliver (fun _ => ([], false)) (fun _ => none) (fun _ _ => none) (fun _ _ _ => none)
      ⟨"s@a.com", []⟩ [1, 2] =
      ([⟨AgentRef.inner, ⟨"s@a.com", []⟩, [1, 2]⟩],
       ((fun (_ : Envelope) (_ : Body) => (none : Option String)) ⟨"s@a.com", []⟩ [1, 2]).map
         DeliverError.agentErr) ∧
    Deliver (fun _ => ([], false)) (fun _ => none) (fun _ _ => some "disk full")
      (fun _ _ _ => none) ⟨"s@a.com", ["alice@a.com"]⟩ [1, 2] =
      ([⟨AgentRef.inner, ⟨"s@a.com", ["alice@a.com"]⟩, [1, 2]⟩],
       ((fun (_ : Envelope) (_ : Body) => (some "disk full" : Option String))
          ⟨"s@a.com", ["alice@a.com"]⟩ [1, 2]).map DeliverError.agentErr) ∧
    Deliver (fun lp => if lp == "alice" then (["nodomain", "x@unserved.com", "ok@served.com"], true) else ([], false))
      (fun n => if n == "served.com" then some ⟨true⟩ else none)
      (fun _ _ => none) (fun _ _ _ => none)
      ⟨"s@a.com", ["alice@a.com"]⟩ [1, 2] =
      ((["nodomain", "x@unserved.com", "ok@served.com"].filterMap
          (specRoutableCall (fun n => if n == "served.com" then some ⟨true⟩ else none)
            ⟨"s@a.com", ["alice@a.com"]⟩ [1, 2])),
       if (["nodomain", "x@unserved.com", "ok@served.com"].filterMap
            (specTargetErr (fun n => if n == "served.com" then some ⟨true⟩ else none)
              (fun _ _ _ => none) ⟨"s@a.com", ["alice@a.com"]⟩ [1, 2])).isEmpty then none
       else some (DeliverError.joined
         (["nodomain", "x@unserved.com", "ok@served.com"].filterMap
           (specTargetErr (fun n => if n == "served.com" then some ⟨true⟩ else none)
             (fun _ _ _ => none) ⟨"s@a.com", ["alice@a.com"]⟩ [1, 2])))) ∧
    ((Deliver (fun lp => if lp == "alice" then (["ok@served.com"], true) else ([], false))
        (fun n => if n == "served.com" then some ⟨true⟩ else none)
        (fun _ _ => none) (fun _ _ _ => none)
        ⟨"s@a.com", ["alice@a.com"]⟩ [1, 2]).2 = none ↔
      ["ok@served.com"].filterMap
        (specTargetErr (fun n => if n == "served.com" then some ⟨true⟩ else none)
          (fun _ _ _ => none) ⟨"s@a.com", ["alice@a.com"]⟩ [1, 2]) = []) :=
  ⟨smart_deliver_c3.1 _ _ _ _ ⟨"s@a.com", []⟩ [1, 2] rfl,
   smart_deliver_c3.2.1 _ _ _ _ ⟨"s@a.com", ["alice@a.com"]⟩ [1, 2] "alice@a.com" []
     rfl (by decide),
   smart_deliver_c3.2.2.1 _ _ _ _ ⟨"s@a.com", ["alice@a.com"]⟩ [1, 2] "alice@a.com" []
     ["nodomain", "x@unserved.com", "ok@served.com"] rfl (by decide),
   smart_deliver_c3.2.2.2 _ _ _ _ ⟨"s@a.com", ["alice@a.com"]⟩ [1, 2] "alice@a.com" []
     ["ok@served.com"] rfl (by decide)⟩

end AuthCore
